import Mathlib

/-!
Verification development for the SQTPM deployment script (deploy.py).

The script's reconciliation engine is shallowly embedded here:
pure string manipulation (basenames, volume strings, substring checks)
is translated directly, and the interactions with the local filesystem
and with the container runtime are abstracted as oracles (`FS`, `Runtime`)
supplying the boolean results the script observes.
-/

namespace Sqtpm

/-! ## Character-list string primitives

Python's `in`, `str.split`, `str.strip`, `str.rstrip` and
`os.path.basename` are modelled over `List Char`. -/

/-- Boolean test that `p` occurs at the start of `l`
(the core of Python substring search). -/
def startsList : List Char → List Char → Bool
  | [], _ => true
  | _ :: _, [] => false
  | a :: as, b :: bs => a == b && startsList as bs

/-- Boolean substring occurrence test, modelling Python's `pat in hay`
on strings: `occursIn pat hay` is true when `pat` occurs contiguously
inside `hay`. -/
def occursIn (pat : List Char) : List Char → Bool
  | [] => pat.isEmpty
  | c :: cs => startsList pat (c :: cs) || occursIn pat cs

/-- Boolean test that `pat` occurs at the end of `l`. -/
def endsList (pat l : List Char) : Bool := startsList pat.reverse l.reverse

/-- Python `pat in hay` for strings (substring containment). -/
def containsSub (hay pat : String) : Bool := occursIn pat.data hay.data

/-- The string `hay` ends with `pat`; used to express that a volume string
"targets exactly" a given container path (the container path is the part
after the colon, hence a suffix of the volume string). -/
def endsWithB (hay pat : String) : Bool := endsList pat.data hay.data

/-- Characters treated as whitespace by Python's `str.strip()`. -/
def isPySpace (c : Char) : Bool :=
  c == ' ' || c == '\t' || c == '\n' || c == '\r' || c == '\x0b' || c == '\x0c'

/-- Python `str.strip()` on a character list. -/
def stripChars (l : List Char) : List Char :=
  ((l.dropWhile isPySpace).reverse.dropWhile isPySpace).reverse

/-- Python `s.rstrip('/')` on a character list. -/
def rstripSlashChars (l : List Char) : List Char :=
  (l.reverse.dropWhile (fun c => c == '/')).reverse

/-- Python `os.path.basename`: the characters after the last `'/'`. -/
def basenameChars (l : List Char) : List Char :=
  l.foldl (fun acc c => if c == '/' then [] else acc ++ [c]) []

/-- String wrapper for `stripChars`. -/
def strip (s : String) : String := ⟨stripChars s.data⟩

/-- String wrapper for `rstripSlashChars` (Python `s.rstrip('/')`). -/
def rstripSlash (s : String) : String := ⟨rstripSlashChars s.data⟩

/-- String wrapper for `basenameChars` (Python `os.path.basename`). -/
def basename (s : String) : String := ⟨basenameChars s.data⟩

/-- Python `s.split(sep)` helper: accumulator implementation over characters. -/
def splitOnCharAux (sep : Char) : List Char → List Char → List (List Char)
  | [], cur => [cur.reverse]
  | c :: cs, cur =>
    if c == sep then cur.reverse :: splitOnCharAux sep cs []
    else splitOnCharAux sep cs (c :: cur)

/-- Python `s.split(sep)` for a single-character separator. -/
def splitOnChar (sep : Char) (l : List Char) : List (List Char) :=
  splitOnCharAux sep l []

/-- Python `s.split(sep, 1)`: split at the first occurrence only; `none`
when the separator does not occur. -/
def splitFirst (sep : Char) : List Char → Option (List Char × List Char)
  | [] => none
  | c :: cs =>
    if c == sep then some ([], cs)
    else
      match splitFirst sep cs with
      | none => none
      | some (l, r) => some (c :: l, r)

/-! ## Filesystem oracle

The script consults `os.path.exists`, `os.path.isdir`, `os.path.isfile`
and `os.path.abspath`; these are modelled as an abstract record of the
answers the local filesystem would give. -/

/-- Oracle for the local-filesystem queries made by deploy.py. -/
structure FS where
  pathExists : String → Bool
  isdir : String → Bool
  isfile : String → Bool
  abspath : String → String

/-! ## Mount Planner (`update_docker_compose_override`)

Source lines 89-200 of deploy.py.  The persisted override file is
modelled by `PersistState`; the function's computation of the final
volume list is the pure core embedded below. -/

/-- The container-path marker `":/var/www/html/"` used by every volume
mapping built by the script. -/
def htmlMark : String := ":/var/www/html/"

/-- The baseline data-volume entry always retained (line 95). -/
def dataVolume : String := "./data:/var/www/data"

/-- The fixed config-file container target `":/var/www/html/sqtpm.cfg"`
(lines 152, 157, 160). -/
def cfgMark : String := ":/var/www/html/sqtpm.cfg"

/-- Basename used for an assignment's container path (lines 111-113):
strip trailing slashes, take the basename, and fall back to the basename
of the absolute path when that is empty. -/
def assignmentBasename (fs : FS) (a : String) : String :=
  let b := basename (rstripSlash a)
  if b = "" then basename (fs.abspath a) else b

/-- The volume mapping string built for a valid assignment (line 114). -/
def assignmentVolume (fs : FS) (a : String) : String :=
  fs.abspath a ++ htmlMark ++ assignmentBasename fs a

/-- The volume mapping string built for a valid password file (line 134);
note that password-file basenames are taken without stripping trailing
slashes. -/
def passVolume (fs : FS) (p : String) : String :=
  fs.abspath p ++ htmlMark ++ basename p

/-- The volume mapping string built for a valid config file (line 152). -/
def cfgVolume (fs : FS) (c : String) : String :=
  fs.abspath c ++ cfgMark

/-- The already-mounted check of lines 118-122 and 138-142: some existing
volume string contains `":/var/www/html/<basename>"` as a substring. -/
def alreadyMounted (existing : List String) (b : String) : Bool :=
  existing.any (fun v => containsSub v (htmlMark ++ b))

/-- The assignment loop of lines 106-125: for each assignment that exists
and is a directory, append its volume mapping unless some existing volume
already contains its container-path marker. -/
def newAssignmentVolumes (fs : FS) (existing : List String) :
    List String → List String
  | [] => []
  | a :: rest =>
    if fs.pathExists a && fs.isdir a then
      if alreadyMounted existing (assignmentBasename fs a) then
        newAssignmentVolumes fs existing rest
      else
        assignmentVolume fs a :: newAssignmentVolumes fs existing rest
    else
      newAssignmentVolumes fs existing rest

/-- The password-file loop of lines 128-146, analogous to the assignment
loop but keyed by the file's plain basename. -/
def newPassVolumes (fs : FS) (existing : List String) :
    List String → List String
  | [] => []
  | p :: rest =>
    if fs.pathExists p && fs.isfile p then
      if alreadyMounted existing (basename p) then
        newPassVolumes fs existing rest
      else
        passVolume fs p :: newPassVolumes fs existing rest
    else
      newPassVolumes fs existing rest

/-- The config-file block of lines 148-168: when a truthy, existing,
regular-file config path is supplied, any existing volume containing the
config marker is filtered out and the new config mapping is appended;
returns the (possibly filtered) existing list and the new config
mappings. -/
def processConfig (fs : FS) (existing : List String) :
    Option String → List String × List String
  | none => (existing, [])
  | some c =>
    if !(c == "") && fs.pathExists c && fs.isfile c then
      if existing.any (fun v => containsSub v cfgMark) then
        (existing.filter (fun v => !(containsSub v cfgMark)), [cfgVolume fs c])
      else
        (existing, [cfgVolume fs c])
    else
      (existing, [])

/-- The pure core of `update_docker_compose_override` (lines 89-171):
the final `all_volumes` list, built as
`existing + new_assignment_volumes + new_pass_file_volumes + new_config_volumes`
with the existing list possibly filtered by the config block. -/
def update_docker_compose_override (fs : FS) (existing : List String)
    (assignments : List String) (config_file : Option String)
    (pass_files : List String) : List String :=
  let newA := newAssignmentVolumes fs existing assignments
  let newP := newPassVolumes fs existing pass_files
  let ec := processConfig fs existing config_file
  ec.1 ++ newA ++ newP ++ ec.2

/-- The persisted override file: absent, present but unparseable (the
`except` branch of lines 96-103), or parsed to a volume list. -/
inductive PersistState where
  | absent
  | unreadable (content : List String)
  | ok (vols : List String)

/-- Reading the persisted state (lines 94-103): the default
`['./data:/var/www/data']` is kept when the file is absent or cannot be
read; otherwise the parsed volume list is used. -/
def readPersisted : PersistState → List String
  | .absent => [dataVolume]
  | .unreadable _ => [dataVolume]
  | .ok vols => vols

/-- Writing back the declaration (lines 173-197): when at most the data
volume remains, the override file is removed (absent); otherwise the full
volume list is written. -/
def writeBack (vols : List String) : PersistState :=
  if vols.length ≤ 1 then .absent else .ok vols

/-! ## Validator (`validate_assignments`, `validate_pass_files`,
`validate_assignment_pass_pairs`), lines 212-227, 360-378, 380-396. -/

/-- Lines 212-227: keep the assignments that exist and are directories;
no other condition is checked. -/
def validate_assignments (fs : FS) : List String → List String
  | [] => []
  | a :: rest =>
    if fs.pathExists a then
      if fs.isdir a then a :: validate_assignments fs rest
      else validate_assignments fs rest
    else validate_assignments fs rest

/-- Lines 360-378: keep the password files that exist and are regular
files. -/
def validate_pass_files (fs : FS) : List String → List String
  | [] => []
  | p :: rest =>
    if fs.pathExists p then
      if fs.isfile p then p :: validate_pass_files fs rest
      else validate_pass_files fs rest
    else validate_pass_files fs rest

/-- Lines 380-396: validate each pair; a pair is kept only when at least
one assignment survives (Python truthiness of the list). -/
def validate_assignment_pass_pairs (fs : FS) :
    List (List String × List String) → List (List String × List String)
  | [] => []
  | (asgs, pfs) :: rest =>
    let va := validate_assignments fs asgs
    let vp := validate_pass_files fs pfs
    if va.isEmpty then validate_assignment_pass_pairs fs rest
    else (va, vp) :: validate_assignment_pass_pairs fs rest

/-! ## Pair-syntax parser (`parse_assignment_pass_pairs`), lines 319-344. -/

/-- Split on a separator character, strip each piece, and discard the
pieces that are empty after stripping (lines 333, 336, 341). -/
def cleanSplit (sep : Char) (s : String) : List String :=
  ((splitOnChar sep s.data).map stripChars).filter
    (fun l => !l.isEmpty) |>.map (fun l => ⟨l⟩)

/-- Lines 319-344: each token yields exactly one pair; a token containing
a colon is split once into an assignments part and a password part, each
then comma-split with empties discarded; a token without a colon yields a
pair with an empty password-file list. -/
def parse_assignment_pass_pairs (args : List String) :
    List (List String × List String) :=
  args.map (fun arg =>
    match splitFirst ':' arg.data with
    | some (l, r) => (cleanSplit ',' ⟨l⟩, cleanSplit ',' ⟨r⟩)
    | none => (cleanSplit ',' arg, []))

/-! ## YAML Config Normalizer (`parse_yaml_config`), lines 424-464.

YAML values the script can receive are modelled by `Y`; the produced
pairs keep the raw (assignments value, password-files value) exactly as
the Python code stores them, so the absence of scalar coercion in one
branch is observable.  A result of `none` models an uncaught Python
exception (e.g. indexing a string, or calling `.get` on a non-dict). -/

/-- Model of the YAML values handled by `parse_yaml_config`. -/
inductive Y where
  | str (s : String)
  | lst (items : List Y)
  | dict (entries : List (String × Y))
  | nil

/-- Python truthiness for the modelled YAML values. -/
def truthy : Y → Bool
  | .str s => !(s == "")
  | .lst items => !items.isEmpty
  | .dict entries => !entries.isEmpty
  | .nil => false

/-- Python `d.get(k, dflt)` on a modelled dict. -/
def yget (entries : List (String × Y)) (k : String) (dflt : Y) : Y :=
  match entries.find? (fun e => e.1 == k) with
  | some e => e.2
  | none => dflt

/-- Python `k in d` for a modelled dict. -/
def hasKey (entries : List (String × Y)) (k : String) : Bool :=
  entries.any (fun e => e.1 == k)

/-- Python `s in items` for a modelled list and a string `s`. -/
def yamlMemStr (items : List Y) (s : String) : Bool :=
  items.any (fun i => match i with | .str t => t == s | _ => false)

/-- The `deployments:` branch body (lines 434-440): each deployment must
be a dict (otherwise `.get` raises, modelled by `none`); its raw
`password_files` value is stored unchanged, and the pair is kept when the
`assignments` value is truthy. -/
def parseDeploymentList : List Y → List (Y × Y) → Option (List (Y × Y))
  | [], acc => some acc
  | d :: rest, acc =>
    match d with
    | .dict dk =>
      let asg := yget dk "assignments" (.lst [])
      let pf := yget dk "password_files" (.lst [])
      if truthy asg then parseDeploymentList rest (acc ++ [(asg, pf)])
      else parseDeploymentList rest acc
    | _ => none

/-- The `assignments:` mapping branch body (lines 444-451): a scalar
string password value is coerced to a one-element list and any other
non-list value to the empty list. -/
def parseAssignmentsMapping : List (String × Y) → List (Y × Y)
  | [] => []
  | (k, v) :: rest =>
    let pf : Y :=
      match v with
      | .str s => .lst [.str s]
      | .lst items => .lst items
      | _ => .lst []
    (Y.lst [Y.str k], pf) :: parseAssignmentsMapping rest

/-- The bare top-level list branch body (lines 453-462): non-dict items
are skipped; a scalar string `password_files` value is coerced to a
one-element list; the pair is kept when the `assignment` value is
truthy. -/
def parseTopLevelList : List Y → List (Y × Y)
  | [] => []
  | item :: rest =>
    match item with
    | .dict idk =>
      let asg := yget idk "assignment" .nil
      let pf := yget idk "password_files" (.lst [])
      let pf2 : Y := match pf with | .str s => .lst [.str s] | _ => pf
      if truthy asg then (Y.lst [asg], pf2) :: parseTopLevelList rest
      else parseTopLevelList rest
    | _ => parseTopLevelList rest

/-- Lines 424-464 (`parse_yaml_config`): dispatch on the shape of the
document.  A falsy document yields no pairs; a dict is inspected for the
`deployments` and `assignments` keys in that order; a list is scanned
item-wise (after Python's `in` membership tests, which on a list with a
literal `"deployments"`/`"assignments"` element would lead to a `TypeError`
when indexing, modelled by `none`); a truthy string containing one of the
key names as a substring would likewise be indexed and raise. -/
def parse_yaml_config (config : Y) : Option (List (Y × Y)) :=
  if !(truthy config) then some []
  else
    match config with
    | .dict kvs =>
      if hasKey kvs "deployments" then
        match yget kvs "deployments" .nil with
        | .lst ds => parseDeploymentList ds []
        | _ => some []
      else if hasKey kvs "assignments" then
        match yget kvs "assignments" .nil with
        | .dict ad => some (parseAssignmentsMapping ad)
        | _ => some []
      else some []
    | .lst items =>
      if yamlMemStr items "deployments" || yamlMemStr items "assignments" then
        none
      else some (parseTopLevelList items)
    | .str s =>
      if occursIn "deployments".data s.data || occursIn "assignments".data s.data then
        none
      else some []
    | .nil => some []

/-! ## Symlink stage (`create_pass_file_links`), lines 229-317.

The container runtime is an oracle answering the in-container existence
pre-checks (`test -d`, `test -f`) and the success of the `ln -s` command.
The `rm -f` preceding each link runs with `check=False` and cannot affect
the function's result.  The function returns the boolean the script
observes together with the list of `(target, link_path)` links actually
created before any abort. -/

/-- Oracle for the container-runtime commands issued by the symlink
stage. -/
structure Runtime where
  dirExists : String → Bool
  fileExists : String → Bool
  lnOk : String → String → Bool

/-- The fixed in-container server root (line 235). -/
def serverRoot : String := "/var/www/html"

/-- Lines 273-315, one password file inside one assignment directory:
skip (successfully) when the in-container `test -f` pre-check fails;
otherwise issue `ln -s ../<basename> <dir>/<basename>` and fail fatally
when it fails. -/
def linkOne (rt : Runtime) (apath p : String) : Bool × List (String × String) :=
  let pb := basename p
  if !(rt.fileExists (serverRoot ++ "/" ++ pb)) then (true, [])
  else
    let tgt := "../" ++ pb
    let lp := apath ++ "/" ++ pb
    if rt.lnOk tgt lp then (true, [(tgt, lp)]) else (false, [])

/-- Sequence `linkOne` over a pair's password files, stopping at the
first fatal failure. -/
def linkAllPass (rt : Runtime) (apath : String) :
    List String → Bool × List (String × String)
  | [] => (true, [])
  | p :: ps =>
    let r := linkOne rt apath p
    if r.1 then
      let rest := linkAllPass rt apath ps
      (rest.1, r.2 ++ rest.2)
    else (false, r.2)

/-- Lines 249-270, one assignment of a pair: refs whose computed basename
is empty, `"."` or `".."` are skipped with a warning, as are those whose
in-container directory pre-check (`test -d`) fails; otherwise the pair's
password files are linked inside it. -/
def processAssignment (rt : Runtime) (fs : FS) (pfs : List String)
    (a : String) : Bool × List (String × String) :=
  let b := assignmentBasename fs a
  if b == "" || b == "." || b == ".." then (true, [])
  else if !(rt.dirExists (serverRoot ++ "/" ++ b)) then (true, [])
  else linkAllPass rt (serverRoot ++ "/" ++ b) pfs

/-- Sequence `processAssignment` over a pair's assignments, stopping at
the first fatal failure. -/
def processAssignments (rt : Runtime) (fs : FS) (pfs : List String) :
    List String → Bool × List (String × String)
  | [] => (true, [])
  | a :: rest =>
    let r := processAssignment rt fs pfs a
    if r.1 then
      let rr := processAssignments rt fs pfs rest
      (rr.1, r.2 ++ rr.2)
    else (false, r.2)

/-- Lines 239-317: pairs without password files are skipped; otherwise
each assignment of the pair is processed, and a fatal link failure aborts
the remaining pairs.  The boolean is the function's return value. -/
def processPairs (rt : Runtime) (fs : FS) :
    List (List String × List String) → Bool × List (String × String)
  | [] => (true, [])
  | (asgs, pfs) :: rest =>
    if pfs.isEmpty then processPairs rt fs rest
    else
      let r := processAssignments rt fs pfs asgs
      if r.1 then
        let rr := processPairs rt fs rest
        (rr.1, r.2 ++ rr.2)
      else (false, r.2)

/-- Lines 229-317 (`create_pass_file_links`): an empty pair list succeeds
immediately; otherwise the pairs are processed in order. -/
def create_pass_file_links (rt : Runtime) (fs : FS)
    (pairs : List (List String × List String)) :
    Bool × List (String × String) :=
  processPairs rt fs pairs

/-- Lines 803-808 of `main`: the symlink stage runs only when some
validated pair has password files, and the run aborts with a non-zero
exit exactly when `create_pass_file_links` returns failure. -/
def symlinkStageExitFailure (rt : Runtime) (fs : FS)
    (pairs : List (List String × List String)) : Bool :=
  if pairs.any (fun pr => !pr.2.isEmpty) then
    !(create_pass_file_links rt fs pairs).1
  else false

/-- Convenience predicate: the config argument is truthy and names an
existing regular file, i.e. the condition of line 150. -/
def cfgActive (fs : FS) : Option String → Bool
  | none => false
  | some c => !(c == "") && fs.pathExists c && fs.isfile c

/-! ## Concrete fixtures

Small concrete filesystem / runtime oracles and YAML documents used to
evaluate the model at specific inputs. -/

/-- Filesystem with one assignment directory `a` and one password file
`p.pass`; absolute paths are rooted at `/h/`. -/
def fsOneEach : FS :=
  ⟨fun s => s == "a" || s == "p.pass", fun s => s == "a",
   fun s => s == "p.pass", fun s => "/h/" ++ s⟩

/-- Filesystem with two assignment directories `x/a` and `y/a` whose
basenames collide; absolute paths are rooted at `/r/`. -/
def fsTwoColliding : FS :=
  ⟨fun s => s == "x/a" || s == "y/a", fun s => s == "x/a" || s == "y/a",
   fun _ => false, fun s => "/r/" ++ s⟩

/-- Filesystem with an assignment directory literally named `sqtpm.cfg`
and a config file `c`; absolute paths are rooted at `/w/`. -/
def fsCfgClash : FS :=
  ⟨fun s => s == "sqtpm.cfg" || s == "c", fun s => s == "sqtpm.cfg",
   fun s => s == "c", fun s => "/w/" ++ s⟩

/-- Filesystem with an assignment directory `x/a` and a config file `c`;
absolute paths are rooted at `/w/`. -/
def fsCfgOk : FS :=
  ⟨fun s => s == "x/a" || s == "c", fun s => s == "x/a",
   fun s => s == "c", fun s => "/w/" ++ s⟩

/-- Filesystem where the path `..` exists and is a directory. -/
def fsDots : FS :=
  ⟨fun s => s == "..", fun s => s == "..", fun _ => false, fun s => s⟩

/-- Filesystem with one assignment directory `hw2`; absolute paths are
rooted at `/w/`. -/
def fsHw : FS :=
  ⟨fun s => s == "hw2", fun s => s == "hw2", fun _ => false,
   fun s => "/w/" ++ s⟩

/-- Filesystem answering `false` to every query (never consulted on the
paths that matter). -/
def trivFS : FS := ⟨fun _ => false, fun _ => false, fun _ => false, fun s => s⟩

/-- Container runtime where every command succeeds. -/
def rtAllOk : Runtime := ⟨fun _ => true, fun _ => true, fun _ _ => true⟩

/-- Container runtime where the existence pre-checks succeed but every
`ln -s` command fails. -/
def rtLnFail : Runtime := ⟨fun _ => true, fun _ => true, fun _ _ => false⟩

/-- Container runtime where only the password file `p2` passes its
in-container `test -f` pre-check and all links succeed. -/
def rtOnlyP2 : Runtime :=
  ⟨fun _ => true, fun s => s == "/var/www/html/p2", fun _ _ => true⟩

/-- YAML document in the `deployments:` shape whose `password_files`
value is the scalar string `p`. -/
def cfgDeployScalar : Y :=
  .dict [("deployments",
    .lst [.dict [("assignments", .lst [.str "a"]), ("password_files", .str "p")]])]

/-- YAML document in the `assignments:` mapping shape whose password
value is the scalar string `p`. -/
def cfgMappingScalar : Y := .dict [("assignments", .dict [("a", .str "p")])]

/-- YAML document in the bare top-level list shape whose
`password_files` value is the scalar string `p`. -/
def cfgListScalar : Y :=
  .lst [.dict [("assignment", .str "a"), ("password_files", .str "p")]]

/-! ## Correctness of the substring primitives -/

theorem startsList_iff (p : List Char) :
    ∀ l, startsList p l = true ↔ ∃ t, l = p ++ t := by
  induction p with
  | nil =>
    intro l
    exact ⟨fun _ => ⟨l, rfl⟩, fun _ => rfl⟩
  | cons a as ih =>
    intro l
    cases l with
    | nil => simp [startsList]
    | cons b bs =>
      simp only [startsList, Bool.and_eq_true, beq_iff_eq, ih, List.cons_append]
      constructor
      · rintro ⟨rfl, t, rfl⟩
        exact ⟨t, rfl⟩
      · rintro ⟨t, ht⟩
        injection ht with h1 h2
        exact ⟨h1.symm, t, h2⟩

theorem occursIn_iff (p : List Char) :
    ∀ l, occursIn p l = true ↔ ∃ s t, l = s ++ p ++ t := by
  intro l
  induction l with
  | nil =>
    simp only [occursIn, List.isEmpty_iff]
    constructor
    · rintro rfl
      exact ⟨[], [], rfl⟩
    · rintro ⟨s, t, h⟩
      rcases List.append_eq_nil.mp h.symm with ⟨h1, h2⟩
      exact (List.append_eq_nil.mp h1).2
  | cons c cs ih =>
    simp only [occursIn, Bool.or_eq_true, startsList_iff, ih]
    constructor
    · rintro (⟨t, ht⟩ | ⟨s, t, ht⟩)
      · exact ⟨[], t, by simpa using ht⟩
      · exact ⟨c :: s, t, by simp [ht]⟩
    · rintro ⟨s, t, h⟩
      cases s with
      | nil => exact Or.inl ⟨t, by simpa using h⟩
      | cons x xs =>
        right
        have h2 : c :: cs = x :: (xs ++ p ++ t) := by simpa using h
        injection h2 with _ h3
        exact ⟨xs, t, h3⟩

theorem endsList_iff (p l : List Char) :
    endsList p l = true ↔ ∃ s, l = s ++ p := by
  unfold endsList
  rw [startsList_iff]
  constructor
  · rintro ⟨t, ht⟩
    refine ⟨t.reverse, ?_⟩
    have h := congrArg List.reverse ht
    simpa using h
  · rintro ⟨s, rfl⟩
    exact ⟨s.reverse, by simp⟩

theorem containsSub_iff (v pat : String) :
    containsSub v pat = true ↔ ∃ s t, v.data = s ++ pat.data ++ t := by
  unfold containsSub
  exact occursIn_iff _ _

theorem containsSub_of_parts (v pat : String) (s t : List Char)
    (h : v.data = s ++ pat.data ++ t) : containsSub v pat = true :=
  (containsSub_iff v pat).mpr ⟨s, t, h⟩

theorem containsSub_of_endsWithB (v pat : String) (h : endsWithB v pat = true) :
    containsSub v pat = true := by
  unfold endsWithB at h
  rcases (endsList_iff _ _).mp h with ⟨s, hs⟩
  exact containsSub_of_parts v pat s [] (by simp [hs])

/-! ## Volume strings contain their container-path markers -/

theorem assignmentVolume_contains (fs : FS) (a : String) :
    containsSub (assignmentVolume fs a) (htmlMark ++ assignmentBasename fs a) = true := by
  apply containsSub_of_parts _ _ (fs.abspath a).data []
  simp [assignmentVolume, String.data_append, List.append_assoc]

theorem passVolume_contains (fs : FS) (p : String) :
    containsSub (passVolume fs p) (htmlMark ++ basename p) = true := by
  apply containsSub_of_parts _ _ (fs.abspath p).data []
  simp [passVolume, String.data_append, List.append_assoc]

theorem cfgVolume_contains (fs : FS) (c : String) :
    containsSub (cfgVolume fs c) cfgMark = true := by
  apply containsSub_of_parts _ _ (fs.abspath c).data []
  simp [cfgVolume, String.data_append]

/-! ## Lemmas about the already-mounted check -/

theorem alreadyMounted_of_mem (ex : List String) (b v : String) (hv : v ∈ ex)
    (hc : containsSub v (htmlMark ++ b) = true) : alreadyMounted ex b = true := by
  unfold alreadyMounted
  exact List.any_eq_true.mpr ⟨v, hv, hc⟩

theorem alreadyMounted_mono (ex ex' : List String) (b : String)
    (hsub : ∀ v ∈ ex, v ∈ ex') (h : alreadyMounted ex b = true) :
    alreadyMounted ex' b = true := by
  rcases List.any_eq_true.mp h with ⟨v, hv, hc⟩
  exact List.any_eq_true.mpr ⟨v, hsub v hv, hc⟩

/-! ## Lemmas about the new-volume loops -/

theorem mem_newAssignmentVolumes (fs : FS) (ex : List String) :
    ∀ (A : List String) (v : String), v ∈ newAssignmentVolumes fs ex A →
      ∃ a, a ∈ A ∧ v = assignmentVolume fs a := by
  intro A
  induction A with
  | nil => intro v h; simp [newAssignmentVolumes] at h
  | cons a rest ih =>
    intro v h
    unfold newAssignmentVolumes at h
    cases hval : (fs.pathExists a && fs.isdir a) with
    | false =>
      rw [hval] at h
      simp only [Bool.false_eq_true, if_false] at h
      rcases ih v h with ⟨a', ha', hv'⟩
      exact ⟨a', List.mem_cons_of_mem _ ha', hv'⟩
    | true =>
      rw [hval] at h
      simp only [if_true] at h
      cases hm : alreadyMounted ex (assignmentBasename fs a) with
      | true =>
        rw [hm] at h
        simp only [if_true] at h
        rcases ih v h with ⟨a', ha', hv'⟩
        exact ⟨a', List.mem_cons_of_mem _ ha', hv'⟩
      | false =>
        rw [hm] at h
        simp only [Bool.false_eq_true, if_false] at h
        rcases List.mem_cons.mp h with h' | h'
        · exact ⟨a, List.mem_cons_self a rest, h'⟩
        · rcases ih v h' with ⟨a', ha', hv'⟩
          exact ⟨a', List.mem_cons_of_mem _ ha', hv'⟩

theorem mem_newPassVolumes (fs : FS) (ex : List String) :
    ∀ (P : List String) (v : String), v ∈ newPassVolumes fs ex P →
      ∃ p, p ∈ P ∧ v = passVolume fs p := by
  intro P
  induction P with
  | nil => intro v h; simp [newPassVolumes] at h
  | cons p rest ih =>
    intro v h
    unfold newPassVolumes at h
    cases hval : (fs.pathExists p && fs.isfile p) with
    | false =>
      rw [hval] at h
      simp only [Bool.false_eq_true, if_false] at h
      rcases ih v h with ⟨p', hp', hv'⟩
      exact ⟨p', List.mem_cons_of_mem _ hp', hv'⟩
    | true =>
      rw [hval] at h
      simp only [if_true] at h
      cases hm : alreadyMounted ex (basename p) with
      | true =>
        rw [hm] at h
        simp only [if_true] at h
        rcases ih v h with ⟨p', hp', hv'⟩
        exact ⟨p', List.mem_cons_of_mem _ hp', hv'⟩
      | false =>
        rw [hm] at h
        simp only [Bool.false_eq_true, if_false] at h
        rcases List.mem_cons.mp h with h' | h'
        · exact ⟨p, List.mem_cons_self p rest, h'⟩
        · rcases ih v h' with ⟨p', hp', hv'⟩
          exact ⟨p', List.mem_cons_of_mem _ hp', hv'⟩

theorem coverage_newAssignmentVolumes (fs : FS) (ex : List String) :
    ∀ (A : List String) (a : String), a ∈ A →
      fs.pathExists a = true → fs.isdir a = true →
      alreadyMounted ex (assignmentBasename fs a) = true ∨
      assignmentVolume fs a ∈ newAssignmentVolumes fs ex A := by
  intro A
  induction A with
  | nil => intro a ha; exact absurd ha (List.not_mem_nil a)
  | cons x rest ih =>
    intro a ha hp hd
    rcases List.mem_cons.mp ha with rfl | ha'
    · cases hm : alreadyMounted ex (assignmentBasename fs a) with
      | true => exact Or.inl rfl
      | false =>
        right
        unfold newAssignmentVolumes
        rw [hp, hd, hm]
        simp
    · rcases ih a ha' hp hd with hl | hr
      · exact Or.inl hl
      · right
        unfold newAssignmentVolumes
        cases hval : (fs.pathExists x && fs.isdir x) with
        | false => simpa using hr
        | true =>
          cases hm : alreadyMounted ex (assignmentBasename fs x) with
          | true => simpa using hr
          | false =>
            simp only [if_true, Bool.false_eq_true, if_false]
            exact List.mem_cons_of_mem _ hr

theorem coverage_newPassVolumes (fs : FS) (ex : List String) :
    ∀ (P : List String) (p : String), p ∈ P →
      fs.pathExists p = true → fs.isfile p = true →
      alreadyMounted ex (basename p) = true ∨
      passVolume fs p ∈ newPassVolumes fs ex P := by
  intro P
  induction P with
  | nil => intro p hp; exact absurd hp (List.not_mem_nil p)
  | cons x rest ih =>
    intro p hp hpe hpf
    rcases List.mem_cons.mp hp with rfl | hp'
    · cases hm : alreadyMounted ex (basename p) with
      | true => exact Or.inl rfl
      | false =>
        right
        unfold newPassVolumes
        rw [hpe, hpf, hm]
        simp
    · rcases ih p hp' hpe hpf with hl | hr
      · exact Or.inl hl
      · right
        unfold newPassVolumes
        cases hval : (fs.pathExists x && fs.isfile x) with
        | false => simpa using hr
        | true =>
          cases hm : alreadyMounted ex (basename x) with
          | true => simpa using hr
          | false =>
            simp only [if_true, Bool.false_eq_true, if_false]
            exact List.mem_cons_of_mem _ hr

theorem newAssignmentVolumes_eq_nil (fs : FS) (ex : List String) :
    ∀ (A : List String), (∀ a ∈ A, fs.pathExists a = true → fs.isdir a = true →
      alreadyMounted ex (assignmentBasename fs a) = true) →
    newAssignmentVolumes fs ex A = [] := by
  intro A
  induction A with
  | nil => intro _; rfl
  | cons a rest ih =>
    intro h
    unfold newAssignmentVolumes
    cases hp : fs.pathExists a with
    | false => simp only [hp, Bool.false_and, Bool.false_eq_true, if_false]
               exact ih (fun x hx => h x (List.mem_cons_of_mem _ hx))
    | true =>
      cases hd : fs.isdir a with
      | false => simp only [hp, hd, Bool.and_false, Bool.false_eq_true, if_false]
                 exact ih (fun x hx => h x (List.mem_cons_of_mem _ hx))
      | true =>
        have hm := h a (List.mem_cons_self a rest) hp hd
        simp only [hp, hd, Bool.and_self, if_true, hm]
        exact ih (fun x hx => h x (List.mem_cons_of_mem _ hx))

theorem newPassVolumes_eq_nil (fs : FS) (ex : List String) :
    ∀ (P : List String), (∀ p ∈ P, fs.pathExists p = true → fs.isfile p = true →
      alreadyMounted ex (basename p) = true) →
    newPassVolumes fs ex P = [] := by
  intro P
  induction P with
  | nil => intro _; rfl
  | cons p rest ih =>
    intro h
    unfold newPassVolumes
    cases hp : fs.pathExists p with
    | false => simp only [hp, Bool.false_and, Bool.false_eq_true, if_false]
               exact ih (fun x hx => h x (List.mem_cons_of_mem _ hx))
    | true =>
      cases hf : fs.isfile p with
      | false => simp only [hp, hf, Bool.and_false, Bool.false_eq_true, if_false]
                 exact ih (fun x hx => h x (List.mem_cons_of_mem _ hx))
      | true =>
        have hm := h p (List.mem_cons_self p rest) hp hf
        simp only [hp, hf, Bool.and_self, if_true, hm]
        exact ih (fun x hx => h x (List.mem_cons_of_mem _ hx))

/-! ## Lemmas about the config block -/

theorem processConfig_inactive (fs : FS) (ex : List String) (cfg : Option String)
    (h : cfgActive fs cfg = false) : processConfig fs ex cfg = (ex, []) := by
  cases cfg with
  | none => rfl
  | some c =>
    simp only [cfgActive] at h
    simp only [processConfig]
    rw [h]
    simp

theorem processConfig_active_noHit (fs : FS) (ex : List String) (c : String)
    (h : cfgActive fs (some c) = true)
    (hno : ex.any (fun v => containsSub v cfgMark) = false) :
    processConfig fs ex (some c) = (ex, [cfgVolume fs c]) := by
  simp only [cfgActive] at h
  simp only [processConfig]
  rw [h, hno]
  simp

theorem processConfig_active_hit (fs : FS) (ex : List String) (c : String)
    (h : cfgActive fs (some c) = true)
    (hhit : ex.any (fun v => containsSub v cfgMark) = true) :
    processConfig fs ex (some c) =
      (ex.filter (fun v => !(containsSub v cfgMark)), [cfgVolume fs c]) := by
  simp only [cfgActive] at h
  simp only [processConfig]
  rw [h, hhit]
  simp

/-! ## Validator membership characterization -/

theorem mem_validate_assignments (fs : FS) :
    ∀ (l : List String) (a : String),
      a ∈ validate_assignments fs l ↔
      a ∈ l ∧ fs.pathExists a = true ∧ fs.isdir a = true := by
  intro l a
  induction l with
  | nil => simp [validate_assignments]
  | cons x xs ih =>
    unfold validate_assignments
    cases hp : fs.pathExists x with
    | false =>
      simp only [Bool.false_eq_true, if_false]
      rw [ih]
      constructor
      · rintro ⟨h1, h2, h3⟩
        exact ⟨List.mem_cons_of_mem _ h1, h2, h3⟩
      · rintro ⟨h1, h2, h3⟩
        rcases List.mem_cons.mp h1 with rfl | h1'
        · rw [h2] at hp
          exact absurd hp (by simp)
        · exact ⟨h1', h2, h3⟩
    | true =>
      cases hd : fs.isdir x with
      | false =>
        simp only [Bool.false_eq_true, if_false, if_true]
        rw [ih]
        constructor
        · rintro ⟨h1, h2, h3⟩
          exact ⟨List.mem_cons_of_mem _ h1, h2, h3⟩
        · rintro ⟨h1, h2, h3⟩
          rcases List.mem_cons.mp h1 with rfl | h1'
          · rw [h3] at hd
            exact absurd hd (by simp)
          · exact ⟨h1', h2, h3⟩
      | true =>
        simp only [if_true]
        rw [List.mem_cons, ih]
        constructor
        · rintro (rfl | ⟨h1, h2, h3⟩)
          · exact ⟨List.mem_cons_self _ _, hp, hd⟩
          · exact ⟨List.mem_cons_of_mem _ h1, h2, h3⟩
        · rintro ⟨h1, h2, h3⟩
          rcases List.mem_cons.mp h1 with rfl | h1'
          · exact Or.inl rfl
          · exact Or.inr ⟨h1', h2, h3⟩

/-! ## Truthiness of assignments in the YAML normalizer output -/

theorem parseDeploymentList_truthy :
    ∀ (ds : List Y) (acc ps : List (Y × Y)),
      (∀ pr ∈ acc, truthy pr.1 = true) →
      parseDeploymentList ds acc = some ps →
      ∀ pr ∈ ps, truthy pr.1 = true := by
  intro ds
  induction ds with
  | nil =>
    intro acc ps hacc h
    have h' : acc = ps := Option.some.inj h
    exact h' ▸ hacc
  | cons d rest ih =>
    intro acc ps hacc h
    cases d with
    | dict dk =>
      simp only [parseDeploymentList] at h
      cases ht : truthy (yget dk "assignments" (.lst [])) with
      | true =>
        rw [ht] at h
        simp only [if_true] at h
        refine ih _ ps ?_ h
        intro pr hpr
        rcases List.mem_append.mp hpr with hl | hr
        · exact hacc pr hl
        · have : pr = (yget dk "assignments" (.lst []),
                       yget dk "password_files" (.lst [])) := by simpa using hr
          rw [this]
          exact ht
      | false =>
        rw [ht] at h
        simp only [Bool.false_eq_true, if_false] at h
        exact ih _ ps hacc h
    | str s => exact absurd h (by simp [parseDeploymentList])
    | lst items => exact absurd h (by simp [parseDeploymentList])
    | nil => exact absurd h (by simp [parseDeploymentList])

theorem parseAssignmentsMapping_truthy :
    ∀ (entries : List (String × Y)) (pr : Y × Y),
      pr ∈ parseAssignmentsMapping entries → truthy pr.1 = true := by
  intro entries
  induction entries with
  | nil => intro pr h; simp [parseAssignmentsMapping] at h
  | cons e rest ih =>
    intro pr h
    obtain ⟨k, v⟩ := e
    unfold parseAssignmentsMapping at h
    rcases List.mem_cons.mp h with rfl | h'
    · simp [truthy]
    · exact ih pr h'

theorem parseTopLevelList_truthy :
    ∀ (items : List Y) (pr : Y × Y),
      pr ∈ parseTopLevelList items → truthy pr.1 = true := by
  intro items
  induction items with
  | nil => intro pr h; simp [parseTopLevelList] at h
  | cons item rest ih =>
    intro pr h
    cases item with
    | dict idk =>
      simp only [parseTopLevelList] at h
      cases ht : truthy (yget idk "assignment" .nil) with
      | true =>
        rw [ht] at h
        simp only [if_true] at h
        rcases List.mem_cons.mp h with rfl | h'
        · simp [truthy]
        · exact ih pr h'
      | false =>
        rw [ht] at h
        simp only [Bool.false_eq_true, if_false] at h
        exact ih pr h
    | str s => exact ih pr (by simpa [parseTopLevelList] using h)
    | lst l => exact ih pr (by simpa [parseTopLevelList] using h)
    | nil => exact ih pr (by simpa [parseTopLevelList] using h)

/-! ## Symlink stage: pre-check failures never abort -/

theorem linkOne_fst_true (rt : Runtime) (apath p : String)
    (hln : ∀ t q, rt.lnOk t q = true) : (linkOne rt apath p).1 = true := by
  unfold linkOne
  cases hfe : rt.fileExists (serverRoot ++ "/" ++ basename p) with
  | false => simp [hfe]
  | true => simp [hfe, hln]

theorem linkAllPass_fst_true (rt : Runtime) (apath : String)
    (hln : ∀ t q, rt.lnOk t q = true) :
    ∀ ps : List String, (linkAllPass rt apath ps).1 = true := by
  intro ps
  induction ps with
  | nil => rfl
  | cons p rest ih =>
    simp [linkAllPass, linkOne_fst_true rt apath p hln, ih]

theorem processAssignment_fst_true (rt : Runtime) (fs : FS)
    (pfs : List String) (a : String) (hln : ∀ t q, rt.lnOk t q = true) :
    (processAssignment rt fs pfs a).1 = true := by
  simp only [processAssignment]
  split
  · rfl
  · split
    · rfl
    · exact linkAllPass_fst_true rt _ hln pfs

theorem processAssignments_fst_true (rt : Runtime) (fs : FS)
    (pfs : List String) (hln : ∀ t q, rt.lnOk t q = true) :
    ∀ asgs : List String, (processAssignments rt fs pfs asgs).1 = true := by
  intro asgs
  induction asgs with
  | nil => rfl
  | cons a rest ih =>
    simp [processAssignments, processAssignment_fst_true rt fs pfs a hln, ih]

theorem processPairs_fst_true (rt : Runtime) (fs : FS)
    (hln : ∀ t q, rt.lnOk t q = true) :
    ∀ pairs : List (List String × List String),
      (processPairs rt fs pairs).1 = true := by
  intro pairs
  induction pairs with
  | nil => rfl
  | cons pr rest ih =>
    obtain ⟨asgs, pfs⟩ := pr
    cases hemp : pfs.isEmpty with
    | true => simp [processPairs, hemp, ih]
    | false =>
      simp [processPairs, hemp, processAssignments_fst_true rt fs pfs hln asgs, ih]

/-! ## Claim C1 -/

/-- C1 (counterexample): the claim says an existing entry targeting a
container path other than `/var/www/html/<basename>` never causes a skip.
Here the only existing entry targets `/var/www/html/ab` (so it does not
target `/var/www/html/a` exactly, witnessed by the failing suffix test),
the ref `a` is valid, and yet the planner appends no binding for it,
because the already-mounted check is a substring test. -/
theorem C1_counterexample :
    fsOneEach.pathExists "a" = true ∧ fsOneEach.isdir "a" = true ∧
    endsWithB "/y:/var/www/html/ab"
      (htmlMark ++ assignmentBasename fsOneEach "a") = false ∧
    newAssignmentVolumes fsOneEach ["/y:/var/www/html/ab"] ["a"] = [] := by
  decide

/-- C1 (amended): for a validated assignment or password-file ref, a new
`(abs(source), container_path)` binding is appended iff no existing
volume string contains `":/var/www/html/<basename>"` as a substring; an
entry targeting exactly that container path always causes a skip, but so
can an entry targeting a different container path that extends it. -/
theorem C1_amended (fs : FS) (ex : List String) (a p : String)
    (ha1 : fs.pathExists a = true) (ha2 : fs.isdir a = true)
    (hp1 : fs.pathExists p = true) (hp2 : fs.isfile p = true) :
    (newAssignmentVolumes fs ex [a] =
      if alreadyMounted ex (assignmentBasename fs a) then []
      else [assignmentVolume fs a]) ∧
    (newPassVolumes fs ex [p] =
      if alreadyMounted ex (basename p) then [] else [passVolume fs p]) ∧
    (∀ v ∈ ex, endsWithB v (htmlMark ++ assignmentBasename fs a) = true →
      alreadyMounted ex (assignmentBasename fs a) = true) := by
  refine ⟨?_, ?_, ?_⟩
  · simp [newAssignmentVolumes, ha1, ha2]
  · simp [newPassVolumes, hp1, hp2]
  · intro v hv h
    exact alreadyMounted_of_mem ex _ v hv (containsSub_of_endsWithB _ _ h)

/-- C1 witness: the amended theorem applied to the one-directory,
one-password-file filesystem and the baseline mount list. -/
theorem C1_amended_witness :
    (newAssignmentVolumes fsOneEach [dataVolume] ["a"] =
      if alreadyMounted [dataVolume] (assignmentBasename fsOneEach "a") then []
      else [assignmentVolume fsOneEach "a"]) ∧
    (newPassVolumes fsOneEach [dataVolume] ["p.pass"] =
      if alreadyMounted [dataVolume] (basename "p.pass") then []
      else [passVolume fsOneEach "p.pass"]) :=
  ⟨(C1_amended fsOneEach [dataVolume] "a" "p.pass"
      (by decide) (by decide) (by decide) (by decide)).1,
   (C1_amended fsOneEach [dataVolume] "a" "p.pass"
      (by decide) (by decide) (by decide) (by decide)).2.1⟩

/-! ## Claim C2 -/

/-- C2 (counterexample): two valid refs with different source paths and
identical basenames in a single invocation both receive bindings, so the
resulting declaration holds two bindings with the same container path,
contradicting the claim that only the first-declared source is bound. -/
theorem C2_counterexample :
    ("x/a" ≠ "y/a") ∧
    assignmentBasename fsTwoColliding "x/a" = assignmentBasename fsTwoColliding "y/a" ∧
    update_docker_compose_override fsTwoColliding [dataVolume]
        ["x/a", "y/a"] none [] =
      [dataVolume, "/r/x/a:/var/www/html/a", "/r/y/a:/var/www/html/a"] ∧
    endsWithB "/r/x/a:/var/www/html/a" (htmlMark ++ "a") = true ∧
    endsWithB "/r/y/a:/var/www/html/a" (htmlMark ++ "a") = true := by
  decide

/-- C2 (amended): the dedup check consults only the previously persisted
volume list, so within a single invocation two valid refs with identical
basenames both receive bindings; only across invocations does the
first-persisted source win: a later run whose persisted list contains the
first ref's binding skips the colliding ref entirely. -/
theorem C2_amended (fs : FS) (ex : List String) (a1 a2 : String)
    (h1 : fs.pathExists a1 = true) (h2 : fs.isdir a1 = true)
    (h3 : fs.pathExists a2 = true) (h4 : fs.isdir a2 = true)
    (hb : assignmentBasename fs a2 = assignmentBasename fs a1)
    (hm : alreadyMounted ex (assignmentBasename fs a1) = false) :
    newAssignmentVolumes fs ex [a1, a2] =
      [assignmentVolume fs a1, assignmentVolume fs a2] ∧
    newAssignmentVolumes fs (ex ++ [assignmentVolume fs a1]) [a2] = [] := by
  constructor
  · simp [newAssignmentVolumes, h1, h2, h3, h4, hb, hm]
  · apply newAssignmentVolumes_eq_nil
    intro a ha hp hd
    have ha2 : a = a2 := by simpa using ha
    subst ha2
    rw [hb]
    exact alreadyMounted_of_mem _ _ _ (by simp)
      (assignmentVolume_contains fs a1)

/-- C2 witness: the amended theorem applied to the colliding-basename
filesystem with the baseline mount list. -/
theorem C2_amended_witness :
    newAssignmentVolumes fsTwoColliding [dataVolume] ["x/a", "y/a"] =
      [assignmentVolume fsTwoColliding "x/a",
       assignmentVolume fsTwoColliding "y/a"] :=
  (C2_amended fsTwoColliding [dataVolume] "x/a" "y/a"
      (by decide) (by decide) (by decide) (by decide) (by decide) (by decide)).1

/-! ## Claim C3 -/

/-- C3 (counterexample): with an assignment directory literally named
`sqtpm.cfg` plus a config override, the second run's config-replacement
filter also removes the assignment's binding, so re-running with
identical inputs from the persisted first-run declaration yields a
different declaration — idempotence fails. -/
theorem C3_counterexample :
    update_docker_compose_override fsCfgClash
        (readPersisted (writeBack (update_docker_compose_override fsCfgClash
          (readPersisted .absent) ["sqtpm.cfg"] (some "c") [])))
        ["sqtpm.cfg"] (some "c") []
      ≠
    update_docker_compose_override fsCfgClash (readPersisted .absent)
      ["sqtpm.cfg"] (some "c") [] := by
  decide

/-- Helper: writing back a declaration with at least two entries and
reading it again returns it unchanged. -/
theorem readPersisted_writeBack_of_long (L : List String)
    (h : ¬ L.length ≤ 1) : readPersisted (writeBack L) = L := by
  unfold writeBack
  rw [if_neg h]
  rfl

/-- Helper: the planner is idempotent from any starting volume list that
is the baseline singleton or has at least two entries, contains no entry
with the config marker, and whose run adds no assignment or password
volume containing the config marker. -/
theorem planner_idempotent_aux (fs : FS) (ex A P : List String)
    (cfg : Option String)
    (hex : ex = [dataVolume] ∨ 2 ≤ ex.length)
    (hexc : ∀ v ∈ ex, containsSub v cfgMark = false)
    (hA : ∀ a ∈ A, containsSub (assignmentVolume fs a) cfgMark = false)
    (hP : ∀ p ∈ P, containsSub (passVolume fs p) cfgMark = false) :
    update_docker_compose_override fs
        (readPersisted (writeBack
          (update_docker_compose_override fs ex A cfg P))) A cfg P
      = update_docker_compose_override fs ex A cfg P := by
  have hex1 : 1 ≤ ex.length := by
    rcases hex with h | h
    · rw [h]; simp
    · omega
  have skipA : ∀ ex2 : List String,
      (∀ v ∈ ex, v ∈ ex2) →
      (∀ v ∈ newAssignmentVolumes fs ex A, v ∈ ex2) →
      newAssignmentVolumes fs ex2 A = [] := by
    intro ex2 hs1 hs2
    apply newAssignmentVolumes_eq_nil
    intro a ha hp hd
    rcases coverage_newAssignmentVolumes fs ex A a ha hp hd with hm | hv
    · exact alreadyMounted_mono _ _ _ hs1 hm
    · exact alreadyMounted_of_mem _ _ _ (hs2 _ hv)
        (assignmentVolume_contains fs a)
  have skipP : ∀ ex2 : List String,
      (∀ v ∈ ex, v ∈ ex2) →
      (∀ v ∈ newPassVolumes fs ex P, v ∈ ex2) →
      newPassVolumes fs ex2 P = [] := by
    intro ex2 hs1 hs2
    apply newPassVolumes_eq_nil
    intro p hp hpe hpf
    rcases coverage_newPassVolumes fs ex P p hp hpe hpf with hm | hv
    · exact alreadyMounted_mono _ _ _ hs1 hm
    · exact alreadyMounted_of_mem _ _ _ (hs2 _ hv)
        (passVolume_contains fs p)
  cases hact : cfgActive fs cfg with
  | false =>
    have hpc := processConfig_inactive fs ex cfg hact
    have hout1 : update_docker_compose_override fs ex A cfg P =
        ex ++ newAssignmentVolumes fs ex A ++ newPassVolumes fs ex P := by
      simp only [update_docker_compose_override]
      rw [hpc]
      simp
    rw [hout1]
    by_cases hlen :
        (ex ++ newAssignmentVolumes fs ex A ++
          newPassVolumes fs ex P).length ≤ 1
    · have hlen2 := hlen
      rw [List.length_append, List.length_append] at hlen2
      have hnA : newAssignmentVolumes fs ex A = [] :=
        List.length_eq_zero.mp (by omega)
      have hnP : newPassVolumes fs ex P = [] :=
        List.length_eq_zero.mp (by omega)
      have hexd : ex = [dataVolume] := by
        rcases hex with h | h
        · exact h
        · exfalso; omega
      rw [hnA, hnP, List.append_nil, List.append_nil, hexd]
      have hwb : readPersisted (writeBack [dataVolume]) = [dataVolume] := by
        simp [writeBack, readPersisted]
      rw [hwb]
      have hpc2 : processConfig fs [dataVolume] cfg = ([dataVolume], []) :=
        processConfig_inactive fs [dataVolume] cfg hact
      have hnA2 : newAssignmentVolumes fs [dataVolume] A = [] := by
        rw [← hexd]; exact hnA
      have hnP2 : newPassVolumes fs [dataVolume] P = [] := by
        rw [← hexd]; exact hnP
      simp only [update_docker_compose_override]
      rw [hpc2, hnA2, hnP2]
      simp
    · set L := ex ++ newAssignmentVolumes fs ex A ++ newPassVolumes fs ex P
        with hL
      rw [readPersisted_writeBack_of_long L hlen]
      have hsA : newAssignmentVolumes fs L A = [] := by
        apply skipA
        · intro v hv; rw [hL]; simp [hv]
        · intro v hv; rw [hL]; simp [hv]
      have hsP : newPassVolumes fs L P = [] := by
        apply skipP
        · intro v hv; rw [hL]; simp [hv]
        · intro v hv; rw [hL]; simp [hv]
      have hpc2 : processConfig fs L cfg = (L, []) :=
        processConfig_inactive fs L cfg hact
      simp only [update_docker_compose_override]
      rw [hpc2, hsA, hsP]
      simp
  | true =>
    cases cfg with
    | none => exact absurd hact (by simp [cfgActive])
    | some c =>
    have hno : ex.any (fun v => containsSub v cfgMark) = false :=
      List.any_eq_false.mpr (by intro v hv; simp [hexc v hv])
    have hpc := processConfig_active_noHit fs ex c hact hno
    have hout1 : update_docker_compose_override fs ex A (some c) P =
        ex ++ newAssignmentVolumes fs ex A ++ newPassVolumes fs ex P ++
        [cfgVolume fs c] := by
      simp only [update_docker_compose_override]
      rw [hpc]
    rw [hout1]
    have hfex : ex.filter (fun v => !(containsSub v cfgMark)) = ex :=
      List.filter_eq_self.mpr (by intro v hv; simp [hexc v hv])
    have hfA : (newAssignmentVolumes fs ex A).filter
        (fun v => !(containsSub v cfgMark)) = newAssignmentVolumes fs ex A :=
      List.filter_eq_self.mpr (by
        intro v hv
        rcases mem_newAssignmentVolumes fs ex A v hv with ⟨a, ha, rfl⟩
        simp [hA a ha])
    have hfP : (newPassVolumes fs ex P).filter
        (fun v => !(containsSub v cfgMark)) = newPassVolumes fs ex P :=
      List.filter_eq_self.mpr (by
        intro v hv
        rcases mem_newPassVolumes fs ex P v hv with ⟨p, hp, rfl⟩
        simp [hP p hp])
    have hfc : [cfgVolume fs c].filter
        (fun v => !(containsSub v cfgMark)) = [] := by
      simp [cfgVolume_contains fs c]
    set L := ex ++ newAssignmentVolumes fs ex A ++ newPassVolumes fs ex P ++
        [cfgVolume fs c] with hL
    have hlen : ¬ (L.length ≤ 1) := by
      rw [hL, List.length_append, List.length_append, List.length_append,
        List.length_singleton]
      omega
    rw [readPersisted_writeBack_of_long L hlen]
    have hsA : newAssignmentVolumes fs L A = [] := by
      apply skipA
      · intro v hv; rw [hL]; simp [hv]
      · intro v hv; rw [hL]; simp [hv]
    have hsP : newPassVolumes fs L P = [] := by
      apply skipP
      · intro v hv; rw [hL]; simp [hv]
      · intro v hv; rw [hL]; simp [hv]
    have hhit : L.any (fun v => containsSub v cfgMark) = true :=
      List.any_eq_true.mpr ⟨cfgVolume fs c, by rw [hL]; simp,
        cfgVolume_contains fs c⟩
    have hpc2 := processConfig_active_hit fs L c hact hhit
    have hLf : L.filter (fun v => !(containsSub v cfgMark)) =
        ex ++ newAssignmentVolumes fs ex A ++ newPassVolumes fs ex P := by
      rw [hL, List.filter_append, List.filter_append, List.filter_append,
        hfex, hfA, hfP, hfc]
      simp
    simp only [update_docker_compose_override]
    rw [hpc2, hsA, hsP]
    simp only [List.append_nil, List.nil_append]
    rw [hLf, hL]

/-- C3 (amended): idempotence holds provided the run's own assignment
and password-file volume strings do not contain the config marker
`":/var/www/html/sqtpm.cfg"` (no basename beginning with `sqtpm.cfg`, no
source path containing that marker) and the starting persisted state is
absent, the baseline singleton, or a list of at least two entries none of
which contains the config marker; without the proviso the counterexample
applies. -/
theorem C3_amended (fs : FS) (s0 : PersistState) (A P : List String)
    (cfg : Option String)
    (hex : readPersisted s0 = [dataVolume] ∨ 2 ≤ (readPersisted s0).length)
    (hexc : ∀ v ∈ readPersisted s0, containsSub v cfgMark = false)
    (hA : ∀ a ∈ A, containsSub (assignmentVolume fs a) cfgMark = false)
    (hP : ∀ p ∈ P, containsSub (passVolume fs p) cfgMark = false) :
    update_docker_compose_override fs
        (readPersisted (writeBack
          (update_docker_compose_override fs (readPersisted s0) A cfg P)))
        A cfg P
      = update_docker_compose_override fs (readPersisted s0) A cfg P :=
  planner_idempotent_aux fs (readPersisted s0) A P cfg hex hexc hA hP

/-- C3 witness: the amended theorem applied to a fresh deployment of the
assignment `x/a` with the config file `c`, starting from an absent
persisted state. -/
theorem C3_amended_witness :
    update_docker_compose_override fsCfgOk
        (readPersisted (writeBack (update_docker_compose_override fsCfgOk
          (readPersisted .absent) ["x/a"] (some "c") [])))
        ["x/a"] (some "c") []
      = update_docker_compose_override fsCfgOk (readPersisted .absent)
          ["x/a"] (some "c") [] :=
  C3_amended fsCfgOk .absent ["x/a"] [] (some "c")
    (by decide) (by decide) (by decide) (by decide)

/-! ## Claim C4 -/

/-- C4: when the persisted declaration has an entry containing the config
marker and a valid, different config source is supplied (and the run's
other refs do not themselves bind the config path), the planner's output
has exactly one binding containing the config marker, namely the new
config mapping, and every old config-marked entry is gone. -/
theorem C4 (fs : FS) (existing A P : List String) (c : String)
    (hc : cfgActive fs (some c) = true)
    (hhit : existing.any (fun v => containsSub v cfgMark) = true)
    (hold : ∀ v ∈ existing, containsSub v cfgMark = true → v ≠ cfgVolume fs c)
    (hA : ∀ a ∈ A, containsSub (assignmentVolume fs a) cfgMark = false)
    (hP : ∀ p ∈ P, containsSub (passVolume fs p) cfgMark = false) :
    ((update_docker_compose_override fs existing A (some c) P).filter
        (fun v => containsSub v cfgMark) = [cfgVolume fs c]) ∧
    (∀ v ∈ existing, containsSub v cfgMark = true →
      v ∉ update_docker_compose_override fs existing A (some c) P) := by
  have hpc := processConfig_active_hit fs existing c hc hhit
  have hupd : update_docker_compose_override fs existing A (some c) P =
      existing.filter (fun v => !(containsSub v cfgMark)) ++
      newAssignmentVolumes fs existing A ++ newPassVolumes fs existing P ++
      [cfgVolume fs c] := by
    simp [update_docker_compose_override, hpc]
  rw [hupd]
  have h1 : (existing.filter (fun v => !(containsSub v cfgMark))).filter
      (fun v => containsSub v cfgMark) = [] := by
    apply List.filter_eq_nil_iff.mpr
    intro v hv
    have hvf := List.of_mem_filter hv
    simp only [Bool.not_eq_true'] at hvf
    simp [hvf]
  have h2 : (newAssignmentVolumes fs existing A).filter
      (fun v => containsSub v cfgMark) = [] := by
    apply List.filter_eq_nil_iff.mpr
    intro v hv
    rcases mem_newAssignmentVolumes fs existing A v hv with ⟨a, ha, rfl⟩
    simp [hA a ha]
  have h3 : (newPassVolumes fs existing P).filter
      (fun v => containsSub v cfgMark) = [] := by
    apply List.filter_eq_nil_iff.mpr
    intro v hv
    rcases mem_newPassVolumes fs existing P v hv with ⟨p, hp, rfl⟩
    simp [hP p hp]
  constructor
  · rw [List.filter_append, List.filter_append, List.filter_append,
      h1, h2, h3]
    simp [cfgVolume_contains fs c]
  · intro v hv hvc hmem
    rcases List.mem_append.mp hmem with hmem | hmem
    · rcases List.mem_append.mp hmem with hmem | hmem
      · rcases List.mem_append.mp hmem with hmem | hmem
        · have hvf := List.of_mem_filter hmem
          rw [hvc] at hvf
          exact absurd hvf (by simp)
        · rcases mem_newAssignmentVolumes fs existing A v hmem with ⟨a, ha, rfl⟩
          rw [hA a ha] at hvc
          exact absurd hvc (by simp)
      · rcases mem_newPassVolumes fs existing P v hmem with ⟨p, hp, rfl⟩
        rw [hP p hp] at hvc
        exact absurd hvc (by simp)
    · have hvc2 : v = cfgVolume fs c := by simpa using hmem
      exact hold v hv hvc hvc2

/-- C4 witness: the theorem applied to a persisted declaration holding a
stale config binding and a fresh config file `c`. -/
theorem C4_witness :
    (update_docker_compose_override fsCfgOk
        [dataVolume, "/old:/var/www/html/sqtpm.cfg"] [] (some "c") []).filter
      (fun v => containsSub v cfgMark) = [cfgVolume fsCfgOk "c"] :=
  (C4 fsCfgOk [dataVolume, "/old:/var/www/html/sqtpm.cfg"] [] [] "c"
      (by decide) (by decide) (by decide) (by decide) (by decide)).1

/-! ## Claim C5 -/

/-- C5: the pair-syntax parser maps `"a,b:p1,p2"` to one pair with
assignments `a, b` and password files `p1, p2`; `"a"` and `"a:"` each to
one pair with assignment `a` and no password files; a token splits at
most once on the colon (`"a:b:c"` keeps `b:c` intact on the password
side); sub-tokens empty after stripping are discarded; and every token
yields exactly one pair. -/
theorem C5 :
    (∀ args : List String,
      (parse_assignment_pass_pairs args).length = args.length) ∧
    parse_assignment_pass_pairs ["a,b:p1,p2"] = [(["a", "b"], ["p1", "p2"])] ∧
    parse_assignment_pass_pairs ["a"] = [(["a"], [])] ∧
    parse_assignment_pass_pairs ["a:"] = [(["a"], [])] ∧
    parse_assignment_pass_pairs ["a:b:c"] = [(["a"], ["b:c"])] ∧
    parse_assignment_pass_pairs ["a, ,b:"] = [(["a", "b"], [])] := by
  refine ⟨fun args => ?_, by decide, by decide, by decide, by decide, by decide⟩
  simp [parse_assignment_pass_pairs]

/-! ## Claim C6 -/

/-- C6 (counterexample): the ref `..` (which exists and is a directory)
survives `validate_assignments` even though its computed basename is
`..`, contradicting the claim that such refs are rejected during the
validation stage. -/
theorem C6_counterexample :
    validate_assignments fsDots [".."] = [".."] ∧
    assignmentBasename fsDots ".." = ".." := by
  decide

/-- C6 (amended): validation checks only existence and directory kind —
a ref survives it iff it is listed, exists and is a directory, with no
basename condition; refs whose computed basename is empty, `.` or `..`
are instead skipped (without any link attempt and without failing) at the
symlink stage. -/
theorem C6_amended (fs : FS) (l : List String) (a : String) (rt : Runtime)
    (pfs : List String)
    (hb : assignmentBasename fs a = "" ∨ assignmentBasename fs a = "." ∨
          assignmentBasename fs a = "..") :
    (a ∈ validate_assignments fs l ↔
      a ∈ l ∧ fs.pathExists a = true ∧ fs.isdir a = true) ∧
    processAssignment rt fs pfs a = (true, []) := by
  constructor
  · exact mem_validate_assignments fs l a
  · rcases hb with hb | hb | hb <;> simp [processAssignment, hb]

/-- C6 witness: the amended theorem applied to the ref `..` on a
filesystem where it exists as a directory. -/
theorem C6_amended_witness :
    ((".." ∈ validate_assignments fsDots [".."] ↔
      ".." ∈ [".."] ∧ fsDots.pathExists ".." = true ∧
        fsDots.isdir ".." = true) ∧
     processAssignment rtAllOk fsDots ["p"] ".." = (true, [])) :=
  C6_amended fsDots [".."] ".." rtAllOk ["p"] (by decide)

/-! ## Claim C7 -/

/-- C7 (counterexample): in the `deployments:` YAML shape, a scalar
`password_files` value is passed through unchanged — the produced pair
carries the raw string, not the one-element list the claim requires. -/
theorem C7_counterexample :
    parse_yaml_config cfgDeployScalar =
      some [(Y.lst [Y.str "a"], Y.str "p")] ∧
    Y.str "p" ≠ Y.lst [Y.str "p"] := by
  refine ⟨rfl, fun h => ?_⟩
  exact Y.noConfusion h

/-- C7 (amended): scalar password values are coerced to one-element lists
in the `assignments:` mapping shape and in the bare top-level list shape,
but in the `deployments:` shape the scalar is stored unconverted. -/
theorem C7_amended :
    parse_yaml_config cfgMappingScalar =
      some [(Y.lst [Y.str "a"], Y.lst [Y.str "p"])] ∧
    parse_yaml_config cfgListScalar =
      some [(Y.lst [Y.str "a"], Y.lst [Y.str "p"])] ∧
    parse_yaml_config cfgDeployScalar =
      some [(Y.lst [Y.str "a"], Y.str "p")] :=
  ⟨rfl, rfl, rfl⟩

/-! ## Claim C8 -/

/-- C8 (counterexample): the pair-syntax token `":p1"` produces a
deployment pair whose assignment set is empty, contradicting the claim
that every produced pair has a non-empty set of assignment refs. -/
theorem C8_counterexample :
    parse_assignment_pass_pairs [":p1"] = [(([] : List String), ["p1"])] := by
  decide

/-- Helper: an empty produced-pair list satisfies the truthiness
property vacuously. -/
theorem truthy_of_nil_ps (ps : List (Y × Y)) (h : ([] : List (Y × Y)) = ps) :
    ∀ pr ∈ ps, truthy pr.1 = true := by
  intro pr hpr
  rw [← h] at hpr
  exact absurd hpr (List.not_mem_nil pr)

/-- C8 (amended): every pair produced from any accepted YAML shape has a
truthy (non-empty) assignments component; only the pair-syntax path can
produce a pair with an empty assignment set. -/
theorem C8_amended (config : Y) (ps : List (Y × Y))
    (h : parse_yaml_config config = some ps) :
    ∀ pr ∈ ps, truthy pr.1 = true := by
  unfold parse_yaml_config at h
  cases ht : truthy config with
  | false =>
    rw [ht] at h
    simp only [Bool.not_false, if_true] at h
    exact truthy_of_nil_ps ps (Option.some.inj h)
  | true =>
    rw [ht] at h
    simp only [Bool.not_true, Bool.false_eq_true, if_false] at h
    cases config with
    | nil => exact absurd ht (by simp [truthy])
    | str s =>
      have h2 : (if (occursIn "deployments".data s.data ||
          occursIn "assignments".data s.data) = true then none
          else some ([] : List (Y × Y))) = some ps := h
      split at h2
      · exact absurd h2 (by simp)
      · exact truthy_of_nil_ps ps (Option.some.inj h2)
    | lst items =>
      have h2 : (if (yamlMemStr items "deployments" ||
          yamlMemStr items "assignments") = true then none
          else some (parseTopLevelList items)) = some ps := h
      split at h2
      · exact absurd h2 (by simp)
      · have h3 := Option.some.inj h2
        intro pr hpr
        rw [← h3] at hpr
        exact parseTopLevelList_truthy items pr hpr
    | dict kvs =>
      have h2 : (if hasKey kvs "deployments" = true then
          (match yget kvs "deployments" Y.nil with
            | Y.lst ds => parseDeploymentList ds []
            | _ => some [])
          else if hasKey kvs "assignments" = true then
            (match yget kvs "assignments" Y.nil with
              | Y.dict ad => some (parseAssignmentsMapping ad)
              | _ => some [])
          else some []) = some ps := h
      split at h2
      · cases hyv : yget kvs "deployments" Y.nil with
        | lst ds =>
          rw [hyv] at h2
          have h3 : parseDeploymentList ds [] = some ps := h2
          exact parseDeploymentList_truthy ds [] ps
            (fun pr hpr => absurd hpr (List.not_mem_nil pr)) h3
        | str s =>
          rw [hyv] at h2
          exact truthy_of_nil_ps ps (Option.some.inj (h2 :
            some ([] : List (Y × Y)) = some ps))
        | dict dd =>
          rw [hyv] at h2
          exact truthy_of_nil_ps ps (Option.some.inj (h2 :
            some ([] : List (Y × Y)) = some ps))
        | nil =>
          rw [hyv] at h2
          exact truthy_of_nil_ps ps (Option.some.inj (h2 :
            some ([] : List (Y × Y)) = some ps))
      · split at h2
        · cases hyv : yget kvs "assignments" Y.nil with
          | dict ad =>
            rw [hyv] at h2
            have h3 : some (parseAssignmentsMapping ad) = some ps := h2
            have h4 := Option.some.inj h3
            intro pr hpr
            rw [← h4] at hpr
            exact parseAssignmentsMapping_truthy ad pr hpr
          | str s =>
            rw [hyv] at h2
            exact truthy_of_nil_ps ps (Option.some.inj (h2 :
              some ([] : List (Y × Y)) = some ps))
          | lst l =>
            rw [hyv] at h2
            exact truthy_of_nil_ps ps (Option.some.inj (h2 :
              some ([] : List (Y × Y)) = some ps))
          | nil =>
            rw [hyv] at h2
            exact truthy_of_nil_ps ps (Option.some.inj (h2 :
              some ([] : List (Y × Y)) = some ps))
        · exact truthy_of_nil_ps ps (Option.some.inj h2)

/-- C8 witness: the amended theorem applied to the scalar `deployments:`
document, whose single produced pair has a truthy assignments value. -/
theorem C8_amended_witness : truthy (Y.lst [Y.str "a"]) = true :=
  C8_amended cfgDeployScalar [(Y.lst [Y.str "a"], Y.str "p")] rfl
    (Y.lst [Y.str "a"], Y.str "p") (List.mem_singleton.mpr rfl)

/-! ## Claim C9 -/

/-- C9: when every `ln -s` command succeeds, the symlink stage returns
success regardless of how the in-container existence pre-checks answer
(pre-check failures only skip links and never abort the run); and
concretely, a failing `ln -s` with passing pre-checks makes the stage
return failure and the run exit non-zero, while a pre-check failure for
`p1` merely skips that link: `p2`'s link is still created and the stage
succeeds. -/
theorem C9 (rt : Runtime) (fs : FS)
    (pairs : List (List String × List String))
    (hln : ∀ t q, rt.lnOk t q = true) :
    ((create_pass_file_links rt fs pairs).1 = true ∧
     symlinkStageExitFailure rt fs pairs = false) ∧
    (symlinkStageExitFailure rtLnFail trivFS [(["a"], ["p"])] = true ∧
     create_pass_file_links rtOnlyP2 trivFS [(["a"], ["p1", "p2"])] =
       (true, [("../p2", "/var/www/html/a/p2")])) := by
  have hc : (create_pass_file_links rt fs pairs).1 = true :=
    processPairs_fst_true rt fs hln pairs
  refine ⟨⟨hc, ?_⟩, by decide⟩
  unfold symlinkStageExitFailure
  simp [hc]

/-- C9 witness: the theorem applied to an all-succeeding runtime on one
pair. -/
theorem C9_witness :
    (create_pass_file_links rtAllOk trivFS [(["a"], ["p"])]).1 = true ∧
    symlinkStageExitFailure rtAllOk trivFS [(["a"], ["p"])] = false :=
  (C9 rtAllOk trivFS [(["a"], ["p"])] (fun _ _ => rfl)).1

/-! ## Claim C10 -/

/-- C10: an unreadable persisted declaration is treated exactly like an
absent one — the planner proceeds from the baseline data mount only, so
whatever the unreadable file contained has no influence; concretely,
previously persisted assignment and config entries are absent from the
newly computed declaration. -/
theorem C10 :
    (∀ (content : List String) (fs : FS) (A P : List String)
        (cfg : Option String),
      update_docker_compose_override fs
          (readPersisted (.unreadable content)) A cfg P =
      update_docker_compose_override fs (readPersisted .absent) A cfg P) ∧
    (update_docker_compose_override fsHw
        (readPersisted (.unreadable [dataVolume, "/h/hw1:/var/www/html/hw1",
          "/old:/var/www/html/sqtpm.cfg"])) ["hw2"] none [] =
        [dataVolume, "/w/hw2:/var/www/html/hw2"] ∧
     "/h/hw1:/var/www/html/hw1" ∉ [dataVolume, "/w/hw2:/var/www/html/hw2"] ∧
     "/old:/var/www/html/sqtpm.cfg" ∉
       [dataVolume, "/w/hw2:/var/www/html/hw2"]) := by
  refine ⟨fun content fs A P cfg => rfl, by decide⟩

end Sqtpm
